import Mathlib

/-!
# Verification of `hetzner-private-dns-sync` (src/hetzner-private-dns-sync/src/main.rs)

Shallow embedding of the reconciliation core: the durable `State`
(`private_network_name`, `servers_synced`), the rename-recovery procedure,
the add/remove diff, the add and remove loops of `main`, the
create-or-update fallback of `DnsUpdaterWrapper::add_server`, and the
byte-level behaviour of `StateWrapper::save`.

External collaborators (the RFC2136 DNS client and the Hetzner HCloud API)
are modelled as outcome oracles: `DnsEnv` gives, per server, the outcome of
the `create`/`update`/`delete` network calls (distinguishing
`dns_update::Error::Response` from every other error, since `add_server`
branches on exactly that), and `CloudEnv` gives the results of
`HCloudWrapper::server_ids` and of each `servers_api::get_server` lookup.
Each server is subject to each kind of call at most once per run, so a
per-server oracle describes exactly one run.

Persistence is modelled at two levels: the run model records the `State`
value handed to every `StateWrapper::save()` call (`saves` trails), and the
byte level of `save` itself — `seek(SeekFrom::Start(0))` followed by
`serde_json::to_writer` with no truncation — is modelled by
`StateWrapper.save` over the previous file contents.
-/

namespace DnsSync

/-- Model of `struct Server` from main.rs: id, private IP and hostname.
`id: i64` is modelled as `Int`. -/
structure Server where
  id : Int
  ip_address : String
  hostname : String
deriving DecidableEq, Repr

/-- Model of `struct State` from main.rs: the durable sync state. -/
structure State where
  private_network_name : String
  servers_synced : List Server
deriving DecidableEq, Repr

/-- Model of `State::default()`: empty network name, no servers synced. -/
def State.default : State := ⟨"", []⟩

/-- Outcome of one `dns_update` network call.  `response` is
`dns_update::Error::Response(resp_text)`; `other` is any other error
(transport, protocol, …).  `add_server` falls back to `update` exactly on
`response`. -/
inductive DnsResult where
  | ok
  | response (resp_text : String)
  | other (msg : String)
deriving DecidableEq, Repr

/-- One DNS mutation as issued on the wire by `DnsUpdaterWrapper`. -/
inductive DnsCall where
  | create (fqdn : String) (content : String) (ttl : Nat)
  | update (fqdn : String) (content : String) (ttl : Nat)
  | delete (fqdn : String)
deriving DecidableEq, Repr

/-- Oracle for the DNS client: the outcome each call would have for a given
server, and whether `server.ip_address.parse::<IpAddr>()` succeeds
(`parseOk` abstracts the standard library's address parser, a pure
function of the string). -/
structure DnsEnv where
  createRes : Server → DnsResult
  updateRes : Server → DnsResult
  deleteRes : Server → DnsResult
  parseOk : String → Bool

/-- FQDN construction `format!("{}.{}", server.hostname, self.zone_name)`. -/
def fqdn (s : Server) (zone_name : String) : String :=
  s.hostname ++ "." ++ zone_name

/-- Model of `DnsUpdaterWrapper::add_server`: parse the IP, attempt `create(fqdn, A
ip, 600)`; on `Error::Response` fall back to a single `update(fqdn, A ip,
600)`; any other create failure, or any update failure, is an error.
Returns the result together with the calls issued, in order. -/
def add_server (env : DnsEnv) (zone_name : String) (server : Server) :
    Except String Unit × List DnsCall :=
  if ¬ env.parseOk server.ip_address then
    (.error "invalid IP address", [])
  else
    let f := fqdn server zone_name
    let c := DnsCall.create f server.ip_address 600
    match env.createRes server with
    | .ok => (.ok (), [c])
    | .response _ =>
      match env.updateRes server with
      | .ok => (.ok (), [c, DnsCall.update f server.ip_address 600])
      | .response e => (.error ("failed to update a DNS record. " ++ e),
        [c, DnsCall.update f server.ip_address 600])
      | .other e => (.error ("failed to update a DNS record. " ++ e),
        [c, DnsCall.update f server.ip_address 600])
    | .other e => (.error ("failed to create a DNS record. " ++ e), [c])

/-- Model of `DnsUpdaterWrapper::remove_server`: one `delete(fqdn)`; any error is
fatal. -/
def remove_server (env : DnsEnv) (zone_name : String) (server : Server) :
    Except String Unit × List DnsCall :=
  match env.deleteRes server with
  | .ok => (.ok (), [DnsCall.delete (fqdn server zone_name)])
  | .response e => (.error ("failed to delete a DNS record. " ++ e),
      [DnsCall.delete (fqdn server zone_name)])
  | .other e => (.error ("failed to delete a DNS record. " ++ e),
      [DnsCall.delete (fqdn server zone_name)])

/-- The part of a `servers_api::get_server` response that the engine reads:
the server's `name`, and the projection
`private_net.iter().find(|n| n.network == network_id).and_then(|n| n.ip)`
(present iff the server has an attachment to the target network carrying an
IP). -/
structure ServerInfo where
  name : String
  ipOnNetwork : Option String

/-- Oracle for the HCloud API: the result of `HCloudWrapper::server_ids`
(network retrieval plus the network's `servers` field, errors collapsed
into the `Except`), and the result of each `servers_api::get_server`
lookup (`.ok none` models a response with `server: None`). -/
structure CloudEnv where
  serverIdsRes : Except String (List Int)
  getServerRes : Int → Except String (Option ServerInfo)

/-- One external network interaction of a run, in program order. -/
inductive ExtCall where
  | listNetwork
  | getServer (id : Int)
  | dns (c : DnsCall)
deriving DecidableEq, Repr

/-- Hydration of a single server inside `HCloudWrapper::hydrate_server_list`:
`get_server`, then extract the IP on the target network (missing attachment
is an error) and the name; the hydrated `Server` carries the requested id. -/
def hydrateServer (cloud : CloudEnv) (server_id : Int) : Except String Server :=
  match cloud.getServerRes server_id with
  | .error e => .error e
  | .ok none =>
    .error ("Couldn't get information for server with id " ++ toString server_id ++ "!")
  | .ok (some info) =>
    match info.ipOnNetwork with
    | some ip => .ok ⟨server_id, ip, info.name⟩
    | none =>
      .error ("Server with id " ++ toString server_id
        ++ " doesn't have the network attached to it!")

/-- Model of `HCloudWrapper::hydrate_server_list`: hydrate each id in order, aborting
at the first failure.  The network info is already cached by the earlier
`server_ids` call, so only the `get_server` calls appear in the trace. -/
def hydrate_server_list (cloud : CloudEnv) (server_ids : List Int) :
    Except String (List Server) × List ExtCall :=
  match server_ids with
  | [] => (.ok [], [])
  | server_id :: rest =>
    match hydrateServer cloud server_id with
    | .error e => (.error e, [.getServer server_id])
    | .ok srv =>
      match hydrate_server_list cloud rest with
      | (.error e, calls) => (.error e, .getServer server_id :: calls)
      | (.ok srvs, calls) => (.ok (srv :: srvs), .getServer server_id :: calls)

/-- How a run terminates abnormally: a propagated `anyhow` error, or the
`.unwrap()` panic on the `find` in the removal loop. -/
inductive RunErr where
  | fatal (msg : String)
  | panicUnwrap
deriving DecidableEq, Repr

/-- Result of one phase of the run: outcome, in-memory state afterwards, the
`State` values handed to `StateWrapper::save()` during the phase (in
order), and the DNS calls issued (in order). -/
structure LoopOut where
  res : Except RunErr Unit
  st : State
  saves : List State
  calls : List DnsCall
deriving Repr

/-- The cleanup loop of rename recovery (main.rs lines 333–340): for each
server in the cloned `servers_synced` list, delete its record, then
`retain` every synced server with a different id and save; the first
failure aborts the loop. -/
def cleanupLoop (env : DnsEnv) (zone_name : String) (toProcess : List Server)
    (st : State) : LoopOut :=
  match toProcess with
  | [] => ⟨.ok (), st, [], []⟩
  | server_info :: rest =>
    match remove_server env zone_name server_info with
    | (.ok _, calls) =>
      let st' : State :=
        { st with servers_synced := st.servers_synced.filter (fun s => s.id != server_info.id) }
      let out := cleanupLoop env zone_name rest st'
      ⟨out.res, out.st, st' :: out.saves, calls ++ out.calls⟩
    | (.error e, calls) => ⟨.error (.fatal e), st, [], calls⟩

/-- The CLI inputs the reconciliation core reads (main.rs `Args`, restricted
to the fields the engine branches on). -/
structure Args where
  private_network_name : String
  zone_name : String
  allow_private_network_change : Bool

/-- Rename recovery (main.rs lines 326–350): if the stored network name
differs from the requested one, either fail (non-empty state, no
authorization), drain the state one delete at a time and then adopt the new
name (authorized), or adopt the new name immediately (empty state). -/
def renameRecovery (args : Args) (env : DnsEnv) (st : State) : LoopOut :=
  if st.private_network_name ≠ args.private_network_name then
    if st.servers_synced ≠ [] then
      if ¬ args.allow_private_network_change then
        ⟨.error (.fatal "The private network name has changed, but the --allow-private-network-change flag was false!"),
          st, [], []⟩
      else
        let out := cleanupLoop env args.zone_name st.servers_synced st
        match out.res with
        | .ok _ =>
          let st' : State := { out.st with private_network_name := args.private_network_name }
          ⟨.ok (), st', out.saves ++ [st'], out.calls⟩
        | .error e => ⟨.error e, out.st, out.saves, out.calls⟩
    else
      let st' : State := { st with private_network_name := args.private_network_name }
      ⟨.ok (), st', [st'], []⟩
  else
    ⟨.ok (), st, [], []⟩

/-- The ids recorded in the state (`server_ids_from_state`, before being
collected into a `HashSet`). -/
def server_ids_from_state (st : State) : List Int :=
  st.servers_synced.map Server.id

/-- The diff `servers_to_add = current_servers − server_ids_from_state` (main.rs lines
355–358).  Both sides are `HashSet`s, so duplicates are collapsed; the
`HashSet` enumeration order is unspecified in Rust, and the model fixes
first-occurrence order.  Set-level properties do not depend on this
choice. -/
def servers_to_add_ids (current_servers : List Int) (st : State) : List Int :=
  current_servers.dedup.filter (fun a => !((server_ids_from_state st).contains a))

/-- The diff `servers_to_remove = server_ids_from_state − current_servers` (main.rs
lines 359–362), with the same `HashSet` modelling. -/
def servers_to_remove_ids (current_servers : List Int) (st : State) : List Int :=
  (server_ids_from_state st).dedup.filter (fun a => !(current_servers.contains a))

/-- The addition loop (main.rs lines 372–379): for each hydrated server,
`add_server` (create-or-update), then push onto `servers_synced` and save;
the first failure aborts. The enclosing `is_empty` guard in the source only
skips an empty loop. -/
def addLoop (env : DnsEnv) (zone_name : String) (toAdd : List Server)
    (st : State) : LoopOut :=
  match toAdd with
  | [] => ⟨.ok (), st, [], []⟩
  | server_info :: rest =>
    match add_server env zone_name server_info with
    | (.ok _, calls) =>
      let st' : State := { st with servers_synced := st.servers_synced ++ [server_info] }
      let out := addLoop env zone_name rest st'
      ⟨out.res, out.st, st' :: out.saves, calls ++ out.calls⟩
    | (.error e, calls) => ⟨.error (.fatal e), st, [], calls⟩

/-- The removal loop (main.rs lines 381–394): for each id scheduled for
removal, `find` the synced server with that id (`.unwrap()` modelled as
`panicUnwrap` when absent), delete its record, then `retain` every synced
server with a different id and save; the first failure aborts. -/
def removeLoop (env : DnsEnv) (zone_name : String) (toRemove : List Int)
    (st : State) : LoopOut :=
  match toRemove with
  | [] => ⟨.ok (), st, [], []⟩
  | server_id :: rest =>
    match st.servers_synced.find? (fun s => s.id == server_id) with
    | none => ⟨.error .panicUnwrap, st, [], []⟩
    | some server_info =>
      match remove_server env zone_name server_info with
      | (.ok _, calls) =>
        let st' : State :=
          { st with servers_synced := st.servers_synced.filter (fun s => s.id != server_info.id) }
        let out := removeLoop env zone_name rest st'
        ⟨out.res, out.st, st' :: out.saves, calls ++ out.calls⟩
      | (.error e, calls) => ⟨.error (.fatal e), st, [], calls⟩

/-- Result of a whole run (`main` from state load onwards): outcome, final
in-memory state, every `State` handed to `save()` in order — the `Drop`
flush of `StateWrapper` on exit included as the last entry — and the
external calls in order. -/
structure RunOut where
  res : Except RunErr Unit
  st : State
  saves : List State
  calls : List ExtCall
deriving Repr

/-- The reconciliation run of `main` (lines 326–397), starting from the
loaded state: rename recovery, diff against the membership provider,
hydration of the add-set, the addition loop, then the removal loop; every
error aborts the remainder of the run. -/
def runMain (args : Args) (cloud : CloudEnv) (dns : DnsEnv) (st0 : State) : RunOut :=
  let r1 := renameRecovery args dns st0
  match r1.res with
  | .error e => ⟨.error e, r1.st, r1.saves ++ [r1.st], r1.calls.map ExtCall.dns⟩
  | .ok _ =>
    let st1 := r1.st
    let dnsCalls1 := r1.calls.map ExtCall.dns
    match cloud.serverIdsRes with
    | .error e =>
      ⟨.error (.fatal e), st1, r1.saves ++ [st1], dnsCalls1 ++ [ExtCall.listNetwork]⟩
    | .ok current_servers =>
      let servers_to_add := servers_to_add_ids current_servers st1
      let servers_to_remove := servers_to_remove_ids current_servers st1
      match hydrate_server_list cloud servers_to_add with
      | (.error e, hcalls) =>
        ⟨.error (.fatal e), st1, r1.saves ++ [st1],
          dnsCalls1 ++ [ExtCall.listNetwork] ++ hcalls⟩
      | (.ok hydrated, hcalls) =>
        let r2 := addLoop dns args.zone_name hydrated st1
        match r2.res with
        | .error e =>
          ⟨.error e, r2.st, r1.saves ++ r2.saves ++ [r2.st],
            dnsCalls1 ++ [ExtCall.listNetwork] ++ hcalls ++ r2.calls.map ExtCall.dns⟩
        | .ok _ =>
          let r3 := removeLoop dns args.zone_name servers_to_remove r2.st
          ⟨r3.res, r3.st, r1.saves ++ r2.saves ++ r3.saves ++ [r3.st],
            dnsCalls1 ++ [ExtCall.listNetwork] ++ hcalls
              ++ r2.calls.map ExtCall.dns ++ r3.calls.map ExtCall.dns⟩

/-- The tail of `runMain` from the diff computation onwards, starting from
the state left by rename recovery; `runMain` is this with the rename
phase's saves and calls prepended. -/
def runFromDiff (args : Args) (cloud : CloudEnv) (dns : DnsEnv) (st1 : State) :
    RunOut :=
  match cloud.serverIdsRes with
  | .error e => ⟨.error (.fatal e), st1, [st1], [ExtCall.listNetwork]⟩
  | .ok current_servers =>
    match hydrate_server_list cloud (servers_to_add_ids current_servers st1) with
    | (.error e, hcalls) =>
      ⟨.error (.fatal e), st1, [st1], [ExtCall.listNetwork] ++ hcalls⟩
    | (.ok hydrated, hcalls) =>
      let r2 := addLoop dns args.zone_name hydrated st1
      match r2.res with
      | .error e =>
        ⟨.error e, r2.st, r2.saves ++ [r2.st],
         [ExtCall.listNetwork] ++ hcalls ++ r2.calls.map ExtCall.dns⟩
      | .ok _ =>
        let r3 := removeLoop dns args.zone_name
          (servers_to_remove_ids current_servers st1) r2.st
        ⟨r3.res, r3.st, r2.saves ++ r3.saves ++ [r3.st],
         [ExtCall.listNetwork] ++ hcalls ++ r2.calls.map ExtCall.dns
           ++ r3.calls.map ExtCall.dns⟩

namespace StateWrapper

/-- The `serde_json` serialization of a `Server`, for field contents that need
no JSON string escaping (the case for hostnames and IP literals). -/
def serializeServer (s : Server) : String :=
  "\x7b\"id\":" ++ toString s.id ++ ",\"ip_address\":\"" ++ s.ip_address
    ++ "\",\"hostname\":\"" ++ s.hostname ++ "\"\x7d"

/-- The `serde_json` serialization of the `State` record, same caveat. -/
def serializeState (st : State) : String :=
  "\x7b\"private_network_name\":\"" ++ st.private_network_name
    ++ "\",\"servers_synced\":["
    ++ String.intercalate "," (st.servers_synced.map serializeServer) ++ "]\x7d"

/-- Writing a buffer into a file after `seek(SeekFrom::Start(0))`, with no
truncation: bytes of the old contents beyond the written length survive. -/
def writeFromStart (new old : String) : String :=
  new ++ old.drop new.length

/-- Model of `StateWrapper::save` (main.rs lines 85–90) at the byte level: seek to
offset 0 and serialize the in-memory state into the file.  The function
maps the previous file contents to the new file contents. -/
def save (prev : String) (st : State) : String :=
  writeFromStart (serializeState st) prev

end StateWrapper

/-! ## Derived notions used to state properties of the loops -/

/-- The synced servers left after `retain`ing, for each id in `ids` in turn,
every server with a different id: the combined effect of a sequence of
removal steps. -/
def dropIds (ids : List Int) (l : List Server) : List Server :=
  l.filter (fun s => !(ids.contains s.id))

/-- The successive states handed to `save()` by the rename-cleanup loop,
one per deleted server. -/
def cleanupSaves (st : State) : List Server → List State
  | [] => []
  | s :: rest =>
    let st' : State :=
      { st with servers_synced := st.servers_synced.filter (fun x => x.id != s.id) }
    st' :: cleanupSaves st' rest

/-- The successive states handed to `save()` by the addition loop, one per
pushed server. -/
def addSaves (st : State) : List Server → List State
  | [] => []
  | s :: rest =>
    let st' : State := { st with servers_synced := st.servers_synced ++ [s] }
    st' :: addSaves st' rest

/-- The successive states handed to `save()` by the removal loop, one per
removed id. -/
def removeSaves (st : State) : List Int → List State
  | [] => []
  | a :: rest =>
    let st' : State :=
      { st with servers_synced := st.servers_synced.filter (fun s => s.id != a) }
    st' :: removeSaves st' rest

/-- The `find` of the removal loop: first synced server with the given id. -/
def findById (l : List Server) (a : Int) : Option Server :=
  l.find? (fun s => s.id == a)

/-- The delete calls the removal loop issues for a list of ids, resolved
against a fixed server list. -/
def deleteCallsFor (zone_name : String) (l : List Server) (ids : List Int) :
    List DnsCall :=
  (ids.map (fun a =>
    match findById l a with
    | some s => [DnsCall.delete (fqdn s zone_name)]
    | none => [])).flatten

/-- The DNS calls issued by `add_server` over a list of servers. -/
def addCalls (env : DnsEnv) (zone_name : String) (l : List Server) : List DnsCall :=
  (l.map (fun s => (add_server env zone_name s).2)).flatten

/-! ## Concrete instances used by the witnesses -/

/-- A concrete server. -/
def wServer1 : Server := ⟨1, "10.0.0.1", "alpha"⟩

/-- Another concrete server. -/
def wServer2 : Server := ⟨2, "10.0.0.2", "beta"⟩

/-- DNS oracle where every call succeeds. -/
def wEnvOk : DnsEnv := ⟨fun _ => .ok, fun _ => .ok, fun _ => .ok, fun _ => true⟩

/-- DNS oracle where every create is rejected with a response error (the
"record already exists" signal) and everything else succeeds. -/
def wEnvCreateExists : DnsEnv :=
  ⟨fun _ => .response "exists", fun _ => .ok, fun _ => .ok, fun _ => true⟩

/-- DNS oracle where the create for server id 2 fails with a transport
error and everything else succeeds. -/
def wEnvCreate2Fails : DnsEnv :=
  ⟨fun s => if s.id = 2 then .other "connection reset" else .ok,
   fun _ => .ok, fun _ => .ok, fun _ => true⟩

/-- DNS oracle where the delete for server id 2 fails with a transport
error and everything else succeeds. -/
def wEnvDelete2Fails : DnsEnv :=
  ⟨fun _ => .ok, fun _ => .ok,
   fun s => if s.id = 2 then .other "connection reset" else .ok,
   fun _ => true⟩

/-- Concrete CLI arguments. -/
def wArgs : Args := ⟨"mynet", "zone.example", false⟩

/-- Concrete CLI arguments with the rename authorization flag set. -/
def wArgsAllow : Args := ⟨"mynet", "zone.example", true⟩

/-- Cloud oracle: the network currently has members 2 and 3 (id 3 listed
twice), and both are hydratable. -/
def wCloud : CloudEnv :=
  ⟨.ok [2, 3, 3],
   fun i =>
     if i = 3 then .ok (some ⟨"gamma", some "10.0.0.3"⟩)
     else if i = 2 then .ok (some ⟨"beta", some "10.0.0.2"⟩)
     else .ok none⟩

/-! ## Basic lemmas about the derived notions -/

theorem dropIds_nil (l : List Server) : dropIds [] l = l := by
  simp [dropIds]

theorem dropIds_cons (a : Int) (ids : List Int) (l : List Server) :
    dropIds (a :: ids) l = dropIds ids (l.filter (fun s => s.id != a)) := by
  rw [dropIds, dropIds, List.filter_filter]
  apply List.filter_congr
  intro s _
  cases h1 : (s.id == a) <;> cases h2 : ids.contains s.id <;>
    simp_all [List.contains_cons, bne]

theorem dropIds_self (l : List Server) (ids : List Int)
    (h : ∀ s ∈ l, s.id ∈ ids) : dropIds ids l = [] := by
  rw [dropIds, List.filter_eq_nil_iff]
  intro s hs
  simp [h s hs]

theorem dropIds_append (ids : List Int) (l₁ l₂ : List Server) :
    dropIds ids (l₁ ++ l₂) = dropIds ids l₁ ++ dropIds ids l₂ := by
  simp [dropIds, List.filter_append]

theorem dropIds_eq_self (ids : List Int) (l : List Server)
    (h : ∀ s ∈ l, s.id ∉ ids) : dropIds ids l = l := by
  rw [dropIds, List.filter_eq_self]
  intro s hs
  simp [h s hs]

theorem map_id_dropIds (ids : List Int) (l : List Server) :
    (dropIds ids l).map Server.id
      = (l.map Server.id).filter (fun a => !(ids.contains a)) := by
  induction l with
  | nil => rfl
  | cons x xs ih =>
    by_cases hx : x.id ∈ ids
    · simp [dropIds, List.filter, hx] at ih ⊢
      exact ih
    · simp [dropIds, List.filter, hx] at ih ⊢
      exact ih

theorem findById_id (l : List Server) (a : Int) (s : Server)
    (h : findById l a = some s) : s.id = a := by
  have := List.find?_some h
  simpa using this

theorem findById_mem (l : List Server) (a : Int) (s : Server)
    (h : findById l a = some s) : s ∈ l :=
  List.mem_of_find?_eq_some h

theorem findById_isSome (l : List Server) (a : Int)
    (h : a ∈ l.map Server.id) : (findById l a).isSome := by
  rw [findById, List.find?_isSome]
  obtain ⟨s, hs, hid⟩ := List.mem_map.mp h
  exact ⟨s, hs, by simp [hid]⟩

theorem find?_filter_of_imp {α : Type} (l : List α) (p q : α → Bool)
    (h : ∀ x, p x = true → q x = true) :
    (l.filter q).find? p = l.find? p := by
  induction l with
  | nil => rfl
  | cons x xs ih =>
    by_cases hq : q x = true
    · rw [List.filter_cons, if_pos hq]
      by_cases hp : p x = true
      · rw [List.find?_cons_of_pos _ hp, List.find?_cons_of_pos _ hp]
      · rw [List.find?_cons_of_neg _ hp, List.find?_cons_of_neg _ hp]
        exact ih
    · rw [List.filter_cons, if_neg hq]
      rw [List.find?_cons_of_neg _ (fun hp => hq (h x hp))]
      exact ih

theorem findById_filter_ne (l : List Server) (a b : Int) (hba : b ≠ a) :
    findById (l.filter (fun s => s.id != a)) b = findById l b := by
  rw [findById, findById]
  apply find?_filter_of_imp
  intro s hs
  have : s.id = b := by simpa using hs
  simp [this, hba]

theorem mem_map_id_filter_ne (l : List Server) (a b : Int) (hba : b ≠ a) :
    (b ∈ (l.filter (fun s => s.id != a)).map Server.id) ↔ b ∈ l.map Server.id := by
  constructor
  · intro h
    obtain ⟨s, hs, hid⟩ := List.mem_map.mp h
    exact List.mem_map.mpr ⟨s, (List.mem_filter.mp hs).1, hid⟩
  · intro h
    obtain ⟨s, hs, hid⟩ := List.mem_map.mp h
    refine List.mem_map.mpr ⟨s, List.mem_filter.mpr ⟨hs, ?_⟩, hid⟩
    simp [hid, hba]

theorem deleteCallsFor_filter_ne (zone_name : String) (l : List Server)
    (x : Int) (ids : List Int) (h : ∀ y ∈ ids, y ≠ x) :
    deleteCallsFor zone_name (l.filter (fun s => s.id != x)) ids
      = deleteCallsFor zone_name l ids := by
  induction ids with
  | nil => rfl
  | cons a rest ih =>
    have ha : a ≠ x := h a (by simp)
    have hrest : ∀ y ∈ rest, y ≠ x := fun y hy => h y (by simp [hy])
    simp only [deleteCallsFor, List.map, List.flatten] at ih ⊢
    rw [findById_filter_ne l x a ha, ih hrest]

/-! ## Lemmas about the diff computation -/

theorem mem_servers_to_add (current_servers : List Int) (st : State) (a : Int) :
    a ∈ servers_to_add_ids current_servers st
      ↔ (a ∈ current_servers ∧ a ∉ server_ids_from_state st) := by
  simp [servers_to_add_ids, List.mem_filter, List.mem_dedup]

theorem mem_servers_to_remove (current_servers : List Int) (st : State) (a : Int) :
    a ∈ servers_to_remove_ids current_servers st
      ↔ (a ∈ server_ids_from_state st ∧ a ∉ current_servers) := by
  simp [servers_to_remove_ids, List.mem_filter, List.mem_dedup]

theorem servers_to_add_nodup (current_servers : List Int) (st : State) :
    (servers_to_add_ids current_servers st).Nodup :=
  (List.nodup_dedup current_servers).filter _

theorem servers_to_remove_nodup (current_servers : List Int) (st : State) :
    (servers_to_remove_ids current_servers st).Nodup :=
  (List.nodup_dedup (server_ids_from_state st)).filter _

/-! ## Characterization of the rename-cleanup loop -/

theorem remove_server_of_ok (env : DnsEnv) (z : String) (s : Server)
    (h : env.deleteRes s = .ok) :
    remove_server env z s = (.ok (), [DnsCall.delete (fqdn s z)]) := by
  simp [remove_server, h]

theorem remove_server_of_fail (env : DnsEnv) (z : String) (s : Server)
    (h : env.deleteRes s ≠ .ok) :
    ∃ m, remove_server env z s = (.error m, [DnsCall.delete (fqdn s z)]) := by
  rw [remove_server]
  cases henv : env.deleteRes s with
  | ok => exact absurd henv h
  | response e => exact ⟨_, rfl⟩
  | other e => exact ⟨_, rfl⟩

theorem cleanupLoop_all_ok (env : DnsEnv) (z : String) (l : List Server) :
    ∀ st : State, (∀ s ∈ l, env.deleteRes s = .ok) →
    cleanupLoop env z l st =
      ⟨.ok (), { st with servers_synced := dropIds (l.map Server.id) st.servers_synced },
       cleanupSaves st l, l.map (fun s => DnsCall.delete (fqdn s z))⟩ := by
  induction l with
  | nil =>
    intro st _
    simp [cleanupLoop, cleanupSaves, dropIds_nil]
  | cons s rest ih =>
    intro st h
    have hr := remove_server_of_ok env z s (h s (by simp))
    simp only [cleanupLoop, hr]
    rw [ih _ (fun x hx => h x (by simp [hx]))]
    simp [cleanupSaves, LoopOut.mk.injEq, List.map_cons, dropIds_cons]

theorem cleanupLoop_fail (env : DnsEnv) (z : String) (pre : List Server) :
    ∀ (s : Server) (post : List Server) (st : State),
    (∀ x ∈ pre, env.deleteRes x = .ok) → env.deleteRes s ≠ .ok →
    ∃ m, cleanupLoop env z (pre ++ s :: post) st =
      ⟨.error (.fatal m),
       { st with servers_synced := dropIds (pre.map Server.id) st.servers_synced },
       cleanupSaves st pre,
       (pre ++ [s]).map (fun x => DnsCall.delete (fqdn x z))⟩ := by
  induction pre with
  | nil =>
    intro s post st _ hs
    obtain ⟨m, hm⟩ := remove_server_of_fail env z s hs
    refine ⟨m, ?_⟩
    simp only [List.nil_append, cleanupLoop, hm]
    simp [cleanupSaves, dropIds_nil]
  | cons x pre' ih =>
    intro s post st hpre hs
    have hr := remove_server_of_ok env z x (hpre x (by simp))
    obtain ⟨m, hm⟩ := ih s post
      { st with servers_synced := st.servers_synced.filter (fun y => y.id != x.id) }
      (fun y hy => hpre y (by simp [hy])) hs
    refine ⟨m, ?_⟩
    simp only [List.cons_append, cleanupLoop, hr, List.append_eq]
    rw [hm]
    simp [cleanupSaves, LoopOut.mk.injEq, dropIds_cons]

theorem cleanupLoop_err_fatal (env : DnsEnv) (z : String) (l : List Server) :
    ∀ (st : State) (e : RunErr), (cleanupLoop env z l st).res = .error e →
    ∃ m, e = .fatal m := by
  induction l with
  | nil => intro st e h; simp [cleanupLoop] at h
  | cons s rest ih =>
    intro st e h
    rw [cleanupLoop] at h
    cases hr : remove_server env z s with
    | mk r calls =>
      cases r with
      | ok u => rw [hr] at h; exact ih _ e h
      | error msg => rw [hr] at h; simp at h; exact ⟨msg, h.symm⟩

theorem cleanupLoop_ok_deletes (env : DnsEnv) (z : String) (l : List Server) :
    ∀ st : State, (cleanupLoop env z l st).res = .ok () →
    ∀ s ∈ l, env.deleteRes s = .ok := by
  induction l with
  | nil => intro st _ s hs; simp at hs
  | cons x rest ih =>
    intro st h s hs
    rw [cleanupLoop] at h
    cases hr : remove_server env z x with
    | mk r calls =>
      cases r with
      | ok u =>
        rcases List.mem_cons.mp hs with hsx | hsr
        · subst hsx
          by_contra hne
          obtain ⟨m, hm⟩ := remove_server_of_fail env z s hne
          rw [hm] at hr
          cases hr
        · rw [hr] at h
          exact ih _ h s hsr
      | error msg => rw [hr] at h; simp at h

/-! ## Characterization of rename recovery -/

theorem renameRecovery_unchanged (args : Args) (env : DnsEnv) (st : State)
    (h : st.private_network_name = args.private_network_name) :
    renameRecovery args env st = ⟨.ok (), st, [], []⟩ := by
  simp [renameRecovery, h]

theorem renameRecovery_changed_empty (args : Args) (env : DnsEnv) (st : State)
    (hne : st.private_network_name ≠ args.private_network_name)
    (he : st.servers_synced = []) :
    renameRecovery args env st =
      ⟨.ok (), ⟨args.private_network_name, []⟩,
       [⟨args.private_network_name, []⟩], []⟩ := by
  simp [renameRecovery, hne, he]

theorem renameRecovery_denied (args : Args) (env : DnsEnv) (st : State)
    (hne : st.private_network_name ≠ args.private_network_name)
    (hns : st.servers_synced ≠ [])
    (hflag : args.allow_private_network_change = false) :
    ∃ m, renameRecovery args env st = ⟨.error (.fatal m), st, [], []⟩ := by
  refine ⟨"The private network name has changed, but the --allow-private-network-change flag was false!", ?_⟩
  simp [renameRecovery, hne, hns, hflag]

theorem renameRecovery_err_fatal (args : Args) (env : DnsEnv) (st : State)
    (e : RunErr) (h : (renameRecovery args env st).res = .error e) :
    ∃ m, e = .fatal m := by
  by_cases h1 : st.private_network_name = args.private_network_name
  · rw [renameRecovery_unchanged args env st h1] at h
    simp at h
  · by_cases h2 : st.servers_synced = []
    · rw [renameRecovery_changed_empty args env st h1 h2] at h
      simp at h
    · cases h3 : args.allow_private_network_change with
      | false =>
        obtain ⟨m, hm⟩ := renameRecovery_denied args env st h1 h2 h3
        rw [hm] at h
        simp at h
        exact ⟨m, h.symm⟩
      | true =>
        simp only [renameRecovery] at h
        rw [if_pos h1, if_pos h2, if_neg (by simp [h3])] at h
        cases hres : (cleanupLoop env args.zone_name st.servers_synced st).res with
        | ok u => rw [hres] at h; simp at h
        | error e' =>
          rw [hres] at h
          simp at h
          subst h
          exact cleanupLoop_err_fatal env args.zone_name st.servers_synced st e' hres

theorem renameRecovery_ok_servers (args : Args) (env : DnsEnv) (st : State)
    (h : (renameRecovery args env st).res = .ok ()) :
    (renameRecovery args env st).st.servers_synced = st.servers_synced
      ∨ (renameRecovery args env st).st.servers_synced = [] := by
  by_cases h1 : st.private_network_name = args.private_network_name
  · rw [renameRecovery_unchanged args env st h1]
    left
    rfl
  · by_cases h2 : st.servers_synced = []
    · rw [renameRecovery_changed_empty args env st h1 h2]
      right
      rfl
    · cases h3 : args.allow_private_network_change with
      | false =>
        obtain ⟨m, hm⟩ := renameRecovery_denied args env st h1 h2 h3
        rw [hm] at h
        simp at h
      | true =>
        have hdel : ∀ s ∈ st.servers_synced, env.deleteRes s = .ok := by
          intro s hs
          refine cleanupLoop_ok_deletes env args.zone_name st.servers_synced st ?_ s hs
          by_contra hne
          cases hres : (cleanupLoop env args.zone_name st.servers_synced st).res with
          | ok u => cases u; exact hne hres
          | error e' =>
            simp only [renameRecovery] at h
            rw [if_pos h1, if_pos h2, if_neg (by simp [h3]), hres] at h
            simp at h
        have hall := cleanupLoop_all_ok env args.zone_name st.servers_synced st hdel
        simp only [renameRecovery]
        rw [if_pos h1, if_pos h2, if_neg (by simp [h3]), hall]
        right
        exact dropIds_self _ _ (fun s hs => List.mem_map.mpr ⟨s, hs, rfl⟩)

/-! ## Characterization of the addition loop -/

theorem add_server_ok_pair (env : DnsEnv) (z : String) (s : Server)
    (h : (add_server env z s).1 = .ok ()) :
    add_server env z s = (.ok (), (add_server env z s).2) := by
  cases hp : add_server env z s with
  | mk r cs =>
    rw [hp] at h
    simp at h
    simp [h]

theorem add_server_fail_pair (env : DnsEnv) (z : String) (s : Server)
    (h : (add_server env z s).1 ≠ .ok ()) :
    ∃ m, add_server env z s = (.error m, (add_server env z s).2) := by
  cases hp : add_server env z s with
  | mk r cs =>
    rw [hp] at h
    cases r with
    | ok u => cases u; simp at h
    | error m => exact ⟨m, by simp⟩

theorem addLoop_all_ok (env : DnsEnv) (z : String) (l : List Server) :
    ∀ st : State, (∀ s ∈ l, (add_server env z s).1 = .ok ()) →
    addLoop env z l st =
      ⟨.ok (), { st with servers_synced := st.servers_synced ++ l },
       addSaves st l, addCalls env z l⟩ := by
  induction l with
  | nil =>
    intro st _
    simp [addLoop, addSaves, addCalls]
  | cons s rest ih =>
    intro st h
    cases hp : add_server env z s with
    | mk r cs =>
      have h1 := h s (by simp)
      rw [hp] at h1
      have h1' : r = Except.ok () := h1
      subst h1'
      simp only [addLoop, hp]
      rw [ih _ (fun x hx => h x (by simp [hx]))]
      simp [addSaves, addCalls, LoopOut.mk.injEq, hp]

theorem addLoop_fail (env : DnsEnv) (z : String) (pre : List Server) :
    ∀ (s : Server) (post : List Server) (st : State),
    (∀ x ∈ pre, (add_server env z x).1 = .ok ()) →
    (add_server env z s).1 ≠ .ok () →
    ∃ m, addLoop env z (pre ++ s :: post) st =
      ⟨.error (.fatal m), { st with servers_synced := st.servers_synced ++ pre },
       addSaves st pre, addCalls env z pre ++ (add_server env z s).2⟩ := by
  induction pre with
  | nil =>
    intro s post st _ hs
    cases hp : add_server env z s with
    | mk r cs =>
      cases r with
      | ok u => cases u; rw [hp] at hs; simp at hs
      | error m =>
        refine ⟨m, ?_⟩
        simp only [List.nil_append, addLoop, hp]
        simp [addSaves, addCalls, hp]
  | cons x pre' ih =>
    intro s post st hpre hs
    cases hp : add_server env z x with
    | mk r cs =>
      have h1 := hpre x (by simp)
      rw [hp] at h1
      have h1' : r = Except.ok () := h1
      subst h1'
      obtain ⟨m, hm⟩ := ih s post
        { st with servers_synced := st.servers_synced ++ [x] }
        (fun y hy => hpre y (by simp [hy])) hs
      refine ⟨m, ?_⟩
      simp only [List.cons_append, addLoop, hp, List.append_eq]
      rw [hm]
      simp [addSaves, addCalls, LoopOut.mk.injEq, hp]

theorem addLoop_err_fatal (env : DnsEnv) (z : String) (l : List Server) :
    ∀ (st : State) (e : RunErr), (addLoop env z l st).res = .error e →
    ∃ m, e = .fatal m := by
  induction l with
  | nil => intro st e h; simp [addLoop] at h
  | cons s rest ih =>
    intro st e h
    rw [addLoop] at h
    cases hp : add_server env z s with
    | mk r cs =>
      cases r with
      | ok u => rw [hp] at h; exact ih _ e h
      | error m => rw [hp] at h; simp at h; exact ⟨m, h.symm⟩

theorem addLoop_ok_all (env : DnsEnv) (z : String) (l : List Server) :
    ∀ st : State, (addLoop env z l st).res = .ok () →
    ∀ s ∈ l, (add_server env z s).1 = .ok () := by
  induction l with
  | nil => intro st _ s hs; simp at hs
  | cons x rest ih =>
    intro st h s hs
    rw [addLoop] at h
    cases hp : add_server env z x with
    | mk r cs =>
      cases r with
      | ok u =>
        rcases List.mem_cons.mp hs with hsx | hsr
        · subst hsx; rw [hp]
        · rw [hp] at h
          exact ih _ h s hsr
      | error m => rw [hp] at h; simp at h

theorem addLoop_st_take (env : DnsEnv) (z : String) (l : List Server) :
    ∀ st : State, ∃ k,
    (addLoop env z l st).st.servers_synced = st.servers_synced ++ l.take k := by
  induction l with
  | nil => intro st; exact ⟨0, by simp [addLoop]⟩
  | cons s rest ih =>
    intro st
    cases hp : add_server env z s with
    | mk r cs =>
      cases r with
      | ok u =>
        cases u
        obtain ⟨k, hk⟩ := ih { st with servers_synced := st.servers_synced ++ [s] }
        refine ⟨k + 1, ?_⟩
        simp only [addLoop, hp]
        simpa using hk
      | error m =>
        refine ⟨0, ?_⟩
        simp [addLoop, hp]

/-! ## Characterization of the removal loop -/

theorem removeLoop_no_panic (env : DnsEnv) (z : String) (ids : List Int) :
    ∀ st : State, ids.Nodup →
    (∀ a ∈ ids, a ∈ st.servers_synced.map Server.id) →
    (removeLoop env z ids st).res ≠ .error .panicUnwrap := by
  induction ids with
  | nil => intro st _ _; simp [removeLoop]
  | cons a rest ih =>
    intro st hnd hsub
    have hsome := findById_isSome st.servers_synced a (hsub a (by simp))
    obtain ⟨srv, hsrv⟩ := Option.isSome_iff_exists.mp hsome
    have hsrv' : st.servers_synced.find? (fun s => s.id == a) = some srv := hsrv
    have hid : srv.id = a := findById_id _ _ _ hsrv
    rw [removeLoop, hsrv']
    cases hres : env.deleteRes srv with
    | ok =>
      have hr := remove_server_of_ok env z srv hres
      simp only [hr]
      apply ih
      · exact hnd.of_cons
      · intro x hx
        have hxa : x ≠ a := by
          rintro rfl
          exact (List.nodup_cons.mp hnd).1 hx
        rw [hid]
        exact (mem_map_id_filter_ne st.servers_synced a x hxa).mpr (hsub x (by simp [hx]))
    | response e =>
      have hr : remove_server env z srv
          = (.error ("failed to delete a DNS record. " ++ e),
             [DnsCall.delete (fqdn srv z)]) := by simp [remove_server, hres]
      simp [hr]
    | other e =>
      have hr : remove_server env z srv
          = (.error ("failed to delete a DNS record. " ++ e),
             [DnsCall.delete (fqdn srv z)]) := by simp [remove_server, hres]
      simp [hr]

theorem removeLoop_ok_st (env : DnsEnv) (z : String) (ids : List Int) :
    ∀ st : State, (removeLoop env z ids st).res = .ok () →
    (removeLoop env z ids st).st
      = { st with servers_synced := dropIds ids st.servers_synced } := by
  induction ids with
  | nil => intro st _; simp [removeLoop, dropIds_nil]
  | cons a rest ih =>
    intro st h
    rw [removeLoop] at h ⊢
    cases hf : st.servers_synced.find? (fun s => s.id == a) with
    | none => rw [hf] at h; simp at h
    | some srv =>
      rw [hf] at h
      simp only at h ⊢
      have hid : srv.id = a := findById_id st.servers_synced a srv hf
      cases hp : remove_server env z srv with
      | mk r cs =>
        cases r with
        | error m => rw [hp] at h; simp at h
        | ok u =>
          cases u
          rw [hp] at h
          have h' : (removeLoop env z rest
              { st with servers_synced :=
                  st.servers_synced.filter (fun s => s.id != srv.id) }).res
              = .ok () := h
          rw [ih _ h']
          simp [dropIds_cons, hid]

theorem removeLoop_err_fatal_of_nodup (env : DnsEnv) (z : String) (ids : List Int) :
    ∀ (st : State) (e : RunErr), ids.Nodup →
    (∀ a ∈ ids, a ∈ st.servers_synced.map Server.id) →
    (removeLoop env z ids st).res = .error e →
    ∃ m, e = .fatal m := by
  intro st e hnd hsub h
  cases e with
  | fatal m => exact ⟨m, rfl⟩
  | panicUnwrap => exact absurd h (removeLoop_no_panic env z ids st hnd hsub)

/-! ## Characterization of hydration -/

theorem hydrateServer_ok_id (cloud : CloudEnv) (i : Int) (s : Server)
    (h : hydrateServer cloud i = .ok s) : s.id = i := by
  rw [hydrateServer] at h
  cases hg : cloud.getServerRes i with
  | error e => rw [hg] at h; cases h
  | ok oinfo =>
    rw [hg] at h
    cases oinfo with
    | none => cases h
    | some info =>
      simp only at h
      cases hip : info.ipOnNetwork with
      | none => rw [hip] at h; cases h
      | some ip =>
        rw [hip] at h
        cases h
        rfl

theorem hydrate_ok_ids (cloud : CloudEnv) (ids : List Int) :
    ∀ (srvs : List Server) (calls : List ExtCall),
    hydrate_server_list cloud ids = (.ok srvs, calls) →
    srvs.map Server.id = ids := by
  induction ids with
  | nil =>
    intro srvs calls h
    rw [hydrate_server_list] at h
    cases h
    rfl
  | cons i rest ih =>
    intro srvs calls h
    rw [hydrate_server_list] at h
    cases hh : hydrateServer cloud i with
    | error e => rw [hh] at h; cases h
    | ok srv =>
      rw [hh] at h
      cases hr : hydrate_server_list cloud rest with
      | mk r cs =>
        cases r with
        | error e => rw [hr] at h; cases h
        | ok srvs' =>
          rw [hr] at h
          cases h
          simp [hydrateServer_ok_id cloud i srv hh, ih srvs' cs hr]

/-! ## Decomposition of the run -/

theorem dropIds_front (pre rest : List Server)
    (hnd : ((pre ++ rest).map Server.id).Nodup) :
    dropIds (pre.map Server.id) (pre ++ rest) = rest := by
  rw [dropIds_append]
  have h1 : dropIds (pre.map Server.id) pre = [] :=
    dropIds_self pre _ (fun s hs => List.mem_map.mpr ⟨s, hs, rfl⟩)
  have h2 : dropIds (pre.map Server.id) rest = rest := by
    apply dropIds_eq_self
    intro s hs hmem
    rw [List.map_append] at hnd
    have hdisj := (List.nodup_append.mp hnd).2.2
    exact hdisj hmem (List.mem_map.mpr ⟨s, hs, rfl⟩)
  rw [h1, h2, List.nil_append]

theorem runMain_decomp (args : Args) (cloud : CloudEnv) (dns : DnsEnv)
    (st0 : State) (h : (renameRecovery args dns st0).res = .ok ()) :
    runMain args cloud dns st0 =
      ⟨(runFromDiff args cloud dns (renameRecovery args dns st0).st).res,
       (runFromDiff args cloud dns (renameRecovery args dns st0).st).st,
       (renameRecovery args dns st0).saves
         ++ (runFromDiff args cloud dns (renameRecovery args dns st0).st).saves,
       ((renameRecovery args dns st0).calls.map ExtCall.dns)
         ++ (runFromDiff args cloud dns (renameRecovery args dns st0).st).calls⟩ := by
  simp only [runMain, runFromDiff]
  rw [h]
  cases hsi : cloud.serverIdsRes with
  | error e => simp
  | ok current_servers =>
    simp only []
    cases hh : hydrate_server_list cloud
        (servers_to_add_ids current_servers (renameRecovery args dns st0).st) with
    | mk r hcalls =>
      cases r with
      | error e => simp
      | ok hydrated =>
        simp only []
        cases hres2 : (addLoop dns args.zone_name hydrated
            (renameRecovery args dns st0).st).res with
        | error e => simp
        | ok u => simp [List.append_assoc]

theorem runFromDiff_no_panic (args : Args) (cloud : CloudEnv) (dns : DnsEnv)
    (st1 : State) : (runFromDiff args cloud dns st1).res ≠ .error .panicUnwrap := by
  cases hsi : cloud.serverIdsRes with
  | error e => simp [runFromDiff, hsi]
  | ok current_servers =>
    rw [runFromDiff, hsi]
    simp only []
    cases hh : hydrate_server_list cloud (servers_to_add_ids current_servers st1) with
    | mk r hcalls =>
      cases r with
      | error e => simp
      | ok hydrated =>
        simp only []
        cases hres2 : (addLoop dns args.zone_name hydrated st1).res with
        | error e =>
          obtain ⟨m, hm⟩ := addLoop_err_fatal dns args.zone_name hydrated st1 e hres2
          subst hm
          simp
        | ok u =>
          cases u
          simp only []
          have hst2 := addLoop_all_ok dns args.zone_name hydrated st1
            (addLoop_ok_all dns args.zone_name hydrated st1 hres2)
          apply removeLoop_no_panic
          · exact servers_to_remove_nodup current_servers st1
          · intro a ha
            rw [hst2]
            have haK : a ∈ server_ids_from_state st1 :=
              ((mem_servers_to_remove current_servers st1 a).mp ha).1
            rw [server_ids_from_state] at haK
            simp only [List.map_append, List.mem_append]
            exact Or.inl haK

theorem runFromDiff_calls_cons (args : Args) (cloud : CloudEnv) (dns : DnsEnv)
    (st1 : State) :
    ∃ rest, (runFromDiff args cloud dns st1).calls = ExtCall.listNetwork :: rest := by
  cases hsi : cloud.serverIdsRes with
  | error e => exact ⟨[], by simp [runFromDiff, hsi]⟩
  | ok current_servers =>
    rw [runFromDiff, hsi]
    simp only []
    cases hh : hydrate_server_list cloud (servers_to_add_ids current_servers st1) with
    | mk r hcalls =>
      cases r with
      | error e => exact ⟨hcalls, by simp⟩
      | ok hydrated =>
        simp only []
        cases hres2 : (addLoop dns args.zone_name hydrated st1).res with
        | error e =>
          exact ⟨hcalls ++ (addLoop dns args.zone_name hydrated st1).calls.map ExtCall.dns,
            by simp⟩
        | ok u =>
          exact ⟨hcalls ++ ((addLoop dns args.zone_name hydrated st1).calls.map ExtCall.dns
            ++ (removeLoop dns args.zone_name (servers_to_remove_ids current_servers st1)
                (addLoop dns args.zone_name hydrated st1).st).calls.map ExtCall.dns),
            by simp⟩

/-! ## The claims -/

/-- C5: the diff is computed as exact set differences: an id is scheduled
for addition iff it is a current member and not recorded in
`servers_synced`; it is scheduled for removal iff it is recorded in
`servers_synced` and not a current member; both schedules list each id at
most once. -/
theorem claim_C5 (current_servers : List Int) (st : State) :
    (∀ a, a ∈ servers_to_add_ids current_servers st
        ↔ (a ∈ current_servers ∧ a ∉ server_ids_from_state st))
    ∧ (∀ a, a ∈ servers_to_remove_ids current_servers st
        ↔ (a ∈ server_ids_from_state st ∧ a ∉ current_servers))
    ∧ (servers_to_add_ids current_servers st).Nodup
    ∧ (servers_to_remove_ids current_servers st).Nodup :=
  ⟨mem_servers_to_add current_servers st,
   mem_servers_to_remove current_servers st,
   servers_to_add_nodup current_servers st,
   servers_to_remove_nodup current_servers st⟩

/-- C4: `add_server` first attempts `create(fqdn, ip, 600)`.  Exactly when
the provider rejects the response (`Error::Response`, not a transport
failure), one `update(fqdn, ip, 600)` with identical content follows, and
no second create; the composite succeeds iff the update does.  Any other
create failure is fatal with no update issued. -/
theorem claim_C4 (env : DnsEnv) (zone_name : String) (server : Server)
    (hp : env.parseOk server.ip_address = true) :
    (env.createRes server = .ok →
      add_server env zone_name server
        = (.ok (), [DnsCall.create (fqdn server zone_name) server.ip_address 600]))
    ∧ (∀ m, env.createRes server = .response m →
      (add_server env zone_name server).2
          = [DnsCall.create (fqdn server zone_name) server.ip_address 600,
             DnsCall.update (fqdn server zone_name) server.ip_address 600]
        ∧ ((add_server env zone_name server).1 = .ok ()
            ↔ env.updateRes server = .ok))
    ∧ (∀ m, env.createRes server = .other m →
      (∃ e, (add_server env zone_name server).1 = .error e)
        ∧ (add_server env zone_name server).2
            = [DnsCall.create (fqdn server zone_name) server.ip_address 600]) := by
  refine ⟨?_, ?_, ?_⟩
  · intro h
    simp [add_server, hp, h]
  · intro m h
    cases hu : env.updateRes server <;> simp [add_server, hp, h, hu]
  · intro m h
    simp [add_server, hp, h]

/-- C4 witness: with a concrete server whose create is rejected with a
response error, the engine issues exactly the create and then one update
with the same address, and succeeds. -/
theorem claim_C4_witness :
    (add_server wEnvCreateExists "zone.example" wServer1).2
        = [DnsCall.create "alpha.zone.example" "10.0.0.1" 600,
           DnsCall.update "alpha.zone.example" "10.0.0.1" 600]
    ∧ ((add_server wEnvCreateExists "zone.example" wServer1).1 = .ok ()
        ↔ wEnvCreateExists.updateRes wServer1 = .ok) :=
  (claim_C4 wEnvCreateExists "zone.example" wServer1 rfl).2.1 "exists" rfl

/-- C3: a rename with non-empty prior state and no authorization aborts the
run with a fatal error; no DNS or membership call is issued, and the sync
state (in memory, and as handed to every `save()` — only the exit flush of
the unchanged state occurs) is unchanged. -/
theorem claim_C3 (args : Args) (cloud : CloudEnv) (dns : DnsEnv) (st0 : State)
    (h1 : st0.private_network_name ≠ args.private_network_name)
    (h2 : st0.servers_synced ≠ [])
    (h3 : args.allow_private_network_change = false) :
    (∃ m, (runMain args cloud dns st0).res = .error (.fatal m))
    ∧ (runMain args cloud dns st0).calls = []
    ∧ (runMain args cloud dns st0).st = st0
    ∧ (runMain args cloud dns st0).saves = [st0] := by
  obtain ⟨m, hm⟩ := renameRecovery_denied args dns st0 h1 h2 h3
  simp only [runMain, hm]
  refine ⟨⟨m, rfl⟩, ?_⟩
  simp

/-- C3 witness: a concrete denied rename aborts with no calls and the state
untouched. -/
theorem claim_C3_witness :
    (runMain wArgs wCloud wEnvOk ⟨"oldnet", [wServer1]⟩).calls = []
    ∧ (runMain wArgs wCloud wEnvOk ⟨"oldnet", [wServer1]⟩).st = ⟨"oldnet", [wServer1]⟩
    ∧ (runMain wArgs wCloud wEnvOk ⟨"oldnet", [wServer1]⟩).saves
        = [⟨"oldnet", [wServer1]⟩] :=
  (claim_C3 wArgs wCloud wEnvOk ⟨"oldnet", [wServer1]⟩ (by decide) (by decide) rfl).2

/-- C8: a rename with empty prior state adopts the new network name
immediately and persists it, with zero DNS calls; the run's first external
call is the membership query of the diff phase, and the adopted state is
the first state ever persisted. -/
theorem claim_C8 (args : Args) (cloud : CloudEnv) (dns : DnsEnv) (st0 : State)
    (h1 : st0.private_network_name ≠ args.private_network_name)
    (h2 : st0.servers_synced = []) :
    renameRecovery args dns st0 =
      ⟨.ok (), ⟨args.private_network_name, []⟩,
       [⟨args.private_network_name, []⟩], []⟩
    ∧ (∃ rest, (runMain args cloud dns st0).calls = ExtCall.listNetwork :: rest)
    ∧ (∃ rest, (runMain args cloud dns st0).saves
        = State.mk args.private_network_name [] :: rest) := by
  have hrr := renameRecovery_changed_empty args dns st0 h1 h2
  have hres : (renameRecovery args dns st0).res = .ok () := by rw [hrr]
  refine ⟨hrr, ?_, ?_⟩
  · rw [runMain_decomp args cloud dns st0 hres]
    obtain ⟨rest, hrest⟩ :=
      runFromDiff_calls_cons args cloud dns (renameRecovery args dns st0).st
    refine ⟨rest, ?_⟩
    show ((renameRecovery args dns st0).calls.map ExtCall.dns)
        ++ (runFromDiff args cloud dns (renameRecovery args dns st0).st).calls
        = ExtCall.listNetwork :: rest
    rw [hrest, hrr]
    simp
  · rw [runMain_decomp args cloud dns st0 hres]
    refine ⟨(runFromDiff args cloud dns (renameRecovery args dns st0).st).saves, ?_⟩
    show (renameRecovery args dns st0).saves
        ++ (runFromDiff args cloud dns (renameRecovery args dns st0).st).saves
        = State.mk args.private_network_name []
            :: (runFromDiff args cloud dns (renameRecovery args dns st0).st).saves
    rw [hrr]
    simp

/-- C8 witness: a concrete rename with empty state adopts the name with no
DNS calls. -/
theorem claim_C8_witness :
    renameRecovery wArgs wEnvOk ⟨"oldnet", []⟩ =
      ⟨.ok (), ⟨"mynet", []⟩, [⟨"mynet", []⟩], []⟩ :=
  (claim_C8 wArgs wCloud wEnvOk ⟨"oldnet", []⟩ (by decide) rfl).1

/-- C9: the `.unwrap()` on the `find` in the removal loop is unreachable:
no run, whatever the environments and starting state, ends in that panic,
because the removal schedule is duplicate-free and stays contained in the
ids of `servers_synced` while the loop shrinks it. -/
theorem claim_C9 (args : Args) (cloud : CloudEnv) (dns : DnsEnv) (st0 : State) :
    (runMain args cloud dns st0).res ≠ .error .panicUnwrap := by
  cases hres1 : (renameRecovery args dns st0).res with
  | error e =>
    obtain ⟨m, hm⟩ := renameRecovery_err_fatal args dns st0 e hres1
    subst hm
    simp only [runMain]
    rw [hres1]
    simp
  | ok u =>
    cases u
    rw [runMain_decomp args cloud dns st0 hres1]
    exact runFromDiff_no_panic args cloud dns (renameRecovery args dns st0).st

/-- C2: authorized rename recovery with non-empty prior state issues
exactly one delete per previously-synced server, removing it from
`servers_synced` and persisting after each individual delete, and adopts
the new network name (persisting it) only after the list is fully drained;
a failure at the delete of the (N+1)-st server leaves exactly the first N
servers removed from the state, with exactly those N removals persisted
and the old network name still in place. -/
theorem claim_C2 (args : Args) (env : DnsEnv) (st : State)
    (h1 : st.private_network_name ≠ args.private_network_name)
    (h2 : st.servers_synced ≠ [])
    (h3 : args.allow_private_network_change = true)
    (hnd : (st.servers_synced.map Server.id).Nodup) :
    ((∀ s ∈ st.servers_synced, env.deleteRes s = .ok) →
      renameRecovery args env st =
        ⟨.ok (), ⟨args.private_network_name, []⟩,
         cleanupSaves st st.servers_synced ++ [⟨args.private_network_name, []⟩],
         st.servers_synced.map (fun s => DnsCall.delete (fqdn s args.zone_name))⟩)
    ∧ (∀ (pre : List Server) (s : Server) (post : List Server),
        st.servers_synced = pre ++ s :: post →
        (∀ x ∈ pre, env.deleteRes x = .ok) →
        env.deleteRes s ≠ .ok →
        (∃ m, (renameRecovery args env st).res = .error (.fatal m))
        ∧ (renameRecovery args env st).st = ⟨st.private_network_name, s :: post⟩
        ∧ (renameRecovery args env st).st.servers_synced.length
            = st.servers_synced.length - pre.length
        ∧ (renameRecovery args env st).saves = cleanupSaves st pre
        ∧ (renameRecovery args env st).calls
            = (pre ++ [s]).map (fun x => DnsCall.delete (fqdn x args.zone_name))) := by
  constructor
  · intro hall
    have hcl := cleanupLoop_all_ok env args.zone_name st.servers_synced st hall
    have hde : dropIds (st.servers_synced.map Server.id) st.servers_synced = [] :=
      dropIds_self _ _ (fun s hs => List.mem_map.mpr ⟨s, hs, rfl⟩)
    simp only [renameRecovery]
    rw [if_pos h1, if_pos h2, if_neg (by simp [h3]), hcl]
    simp [hde]
  · intro pre s post hsplit hpre hs
    obtain ⟨m, hm⟩ := cleanupLoop_fail env args.zone_name pre s post st hpre hs
    have hred : renameRecovery args env st =
        ⟨.error (.fatal m),
         { st with servers_synced := dropIds (pre.map Server.id) st.servers_synced },
         cleanupSaves st pre,
         (pre ++ [s]).map (fun x => DnsCall.delete (fqdn x args.zone_name))⟩ := by
      simp only [renameRecovery]
      rw [if_pos h1, if_pos h2, if_neg (by simp [h3])]
      rw [hsplit] at hm ⊢
      rw [hm]
    have hdrop : dropIds (pre.map Server.id) st.servers_synced = s :: post := by
      rw [hsplit]
      apply dropIds_front
      rw [← hsplit]
      exact hnd
    rw [hred]
    refine ⟨⟨m, rfl⟩, ?_, ?_, rfl, rfl⟩
    · simp [hdrop]
    · show (dropIds (pre.map Server.id) st.servers_synced).length
          = st.servers_synced.length - pre.length
      rw [hdrop, hsplit]
      simp

/-- C2 witness: a concrete authorized rename of a two-server state with all
deletes succeeding drains the state one persisted delete at a time, then
adopts the new name. -/
theorem claim_C2_witness :
    renameRecovery wArgsAllow wEnvOk ⟨"oldnet", [wServer1, wServer2]⟩ =
      ⟨.ok (), ⟨"mynet", []⟩,
       [⟨"oldnet", [wServer2]⟩, ⟨"oldnet", []⟩, ⟨"mynet", []⟩],
       [DnsCall.delete "alpha.zone.example", DnsCall.delete "beta.zone.example"]⟩ :=
  ((claim_C2 wArgsAllow wEnvOk ⟨"oldnet", [wServer1, wServer2]⟩
      (by decide) (by decide) rfl (by decide)).1 (fun s _ => rfl)).trans (by rfl)

/-- C10: duplicate ids in the membership list are collapsed before diffing:
the addition schedule is unchanged by deduplicating the member list and is
itself duplicate-free (as is the removal schedule's dependence on the
member list); a successfully hydrated add-set carries exactly the scheduled
ids, each once; and the add loop only ever appends a prefix of that
duplicate-free set, so each id is appended to `servers_synced` at most once
per run. -/
theorem claim_C10 (cloud : CloudEnv) (current_servers : List Int) (st : State)
    (hydrated : List Server) (hcalls : List ExtCall)
    (hyd : hydrate_server_list cloud (servers_to_add_ids current_servers st)
      = (.ok hydrated, hcalls)) :
    servers_to_add_ids current_servers st
        = servers_to_add_ids current_servers.dedup st
    ∧ servers_to_remove_ids current_servers st
        = servers_to_remove_ids current_servers.dedup st
    ∧ (servers_to_add_ids current_servers st).Nodup
    ∧ hydrated.map Server.id = servers_to_add_ids current_servers st
    ∧ (hydrated.map Server.id).Nodup
    ∧ ∀ (dns : DnsEnv) (z : String) (st1 : State), ∃ k,
        (addLoop dns z hydrated st1).st.servers_synced
          = st1.servers_synced ++ hydrated.take k := by
  have hids := hydrate_ok_ids cloud (servers_to_add_ids current_servers st)
    hydrated hcalls hyd
  refine ⟨?_, ?_, servers_to_add_nodup current_servers st, hids, ?_, ?_⟩
  · rw [servers_to_add_ids, servers_to_add_ids, List.dedup_idem]
  · rw [servers_to_remove_ids, servers_to_remove_ids]
    apply List.filter_congr
    intro a _
    have : current_servers.dedup.contains a = current_servers.contains a := by simp
    rw [this]
  · rw [hids]
    exact servers_to_add_nodup current_servers st
  · intro dns z st1
    exact addLoop_st_take dns z hydrated st1

/-- C10 witness: with the member list `[2, 3, 3]` (id 3 twice) against a
state knowing id 2, the schedule is `[3]` — unchanged under dedup — and the
hydrated add-set carries id 3 exactly once. -/
theorem claim_C10_witness :
    servers_to_add_ids [2, 3, 3] (State.mk "mynet" [wServer2])
        = servers_to_add_ids ([2, 3, 3] : List Int).dedup (State.mk "mynet" [wServer2])
    ∧ ([⟨3, "10.0.0.3", "gamma"⟩] : List Server).map Server.id
        = servers_to_add_ids [2, 3, 3] (State.mk "mynet" [wServer2]) :=
  ⟨(claim_C10 wCloud [2, 3, 3] (State.mk "mynet" [wServer2])
      [⟨3, "10.0.0.3", "gamma"⟩] [ExtCall.getServer 3] rfl).1,
   (claim_C10 wCloud [2, 3, 3] (State.mk "mynet" [wServer2])
      [⟨3, "10.0.0.3", "gamma"⟩] [ExtCall.getServer 3] rfl).2.2.2.1⟩

theorem runFromDiff_ok_st (args : Args) (cloud : CloudEnv) (dns : DnsEnv)
    (st1 : State) (current : List Int)
    (hcur : cloud.serverIdsRes = .ok current)
    (hok : (runFromDiff args cloud dns st1).res = .ok ()) :
    ∃ hydrated : List Server,
      hydrated.map Server.id = servers_to_add_ids current st1
      ∧ (runFromDiff args cloud dns st1).st
          = { st1 with servers_synced :=
                (dropIds (servers_to_remove_ids current st1)
                  (st1.servers_synced ++ hydrated)) } := by
  rw [runFromDiff, hcur] at hok ⊢
  simp only [] at hok ⊢
  cases hh : hydrate_server_list cloud (servers_to_add_ids current st1) with
  | mk r hcalls =>
    rw [hh] at hok
    cases r with
    | error e => simp at hok
    | ok hydrated =>
      simp only [] at hok ⊢
      cases hres2 : (addLoop dns args.zone_name hydrated st1).res with
      | error e => rw [hres2] at hok; simp at hok
      | ok u =>
        cases u
        rw [hres2] at hok
        simp only [] at hok ⊢
        have haddall := addLoop_all_ok dns args.zone_name hydrated st1
          (addLoop_ok_all dns args.zone_name hydrated st1 hres2)
        rw [haddall] at hok ⊢
        simp only [] at hok ⊢
        have hrem := removeLoop_ok_st dns args.zone_name
          (servers_to_remove_ids current st1)
          { st1 with servers_synced := st1.servers_synced ++ hydrated } hok
        refine ⟨hydrated,
          hydrate_ok_ids cloud (servers_to_add_ids current st1) hydrated hcalls hh, ?_⟩
        rw [hrem]

theorem reconcile_ids (current : List Int) (st1 : State) (hydrated : List Server)
    (hK : (server_ids_from_state st1).Nodup)
    (hyd : hydrated.map Server.id = servers_to_add_ids current st1) :
    ((dropIds (servers_to_remove_ids current st1)
        (st1.servers_synced ++ hydrated)).map Server.id).toFinset = current.toFinset
    ∧ ((dropIds (servers_to_remove_ids current st1)
        (st1.servers_synced ++ hydrated)).map Server.id).Nodup := by
  rw [server_ids_from_state] at hK
  rw [map_id_dropIds, List.map_append, hyd]
  constructor
  · ext a
    have hA := mem_servers_to_add current st1 a
    have hR := mem_servers_to_remove current st1 a
    rw [server_ids_from_state] at hA hR
    simp only [List.mem_toFinset, List.mem_filter, List.mem_append,
      Bool.not_eq_true']
    constructor
    · rintro ⟨hmem, hnR⟩
      by_contra hnc
      rcases hmem with hK | hA'
      · have : a ∈ servers_to_remove_ids current st1 := hR.mpr ⟨hK, hnc⟩
        simp [this] at hnR
      · exact hnc (hA.mp hA').1
    · intro hc
      by_cases hK : a ∈ st1.servers_synced.map Server.id
      · refine ⟨Or.inl hK, ?_⟩
        have : a ∉ servers_to_remove_ids current st1 := fun hmem =>
          (hR.mp hmem).2 hc
        simpa using this
      · refine ⟨Or.inr (hA.mpr ⟨hc, hK⟩), ?_⟩
        have : a ∉ servers_to_remove_ids current st1 := fun hmem =>
          (hR.mp hmem).2 hc
        simpa using this
  · apply List.Nodup.filter
    rw [List.nodup_append]
    refine ⟨hK, servers_to_add_nodup current st1, ?_⟩
    intro a haK haA
    exact ((mem_servers_to_add current st1 a).mp haA).2
      (by rw [server_ids_from_state]; exact haK)

/-- C1: after a successful run, the ids in the final `servers_synced` are
exactly (as a set) the ids the membership provider returned for the target
network, with no duplicate ids, provided the loaded state respected the
unique-by-id invariant. -/
theorem claim_C1 (args : Args) (cloud : CloudEnv) (dns : DnsEnv) (st0 : State)
    (current_servers : List Int)
    (hnd : (server_ids_from_state st0).Nodup)
    (hcur : cloud.serverIdsRes = .ok current_servers)
    (hok : (runMain args cloud dns st0).res = .ok ()) :
    (server_ids_from_state (runMain args cloud dns st0).st).toFinset
        = current_servers.toFinset
    ∧ (server_ids_from_state (runMain args cloud dns st0).st).Nodup := by
  cases hres1 : (renameRecovery args dns st0).res with
  | error e =>
    exfalso
    simp only [runMain] at hok
    rw [hres1] at hok
    simp at hok
  | ok u =>
    cases u
    rw [runMain_decomp args cloud dns st0 hres1] at hok ⊢
    have hok' : (runFromDiff args cloud dns (renameRecovery args dns st0).st).res
        = .ok () := hok
    have hnd1 : (server_ids_from_state (renameRecovery args dns st0).st).Nodup := by
      rcases renameRecovery_ok_servers args dns st0 hres1 with h | h
      · rw [server_ids_from_state, h]
        rw [server_ids_from_state] at hnd
        exact hnd
      · rw [server_ids_from_state, h]
        simp
    obtain ⟨hydrated, hyid, hst⟩ := runFromDiff_ok_st args cloud dns
      (renameRecovery args dns st0).st current_servers hcur hok'
    have hrec := reconcile_ids current_servers (renameRecovery args dns st0).st
      hydrated hnd1 hyid
    have h1 : server_ids_from_state
        (runFromDiff args cloud dns (renameRecovery args dns st0).st).st
        = (dropIds (servers_to_remove_ids current_servers (renameRecovery args dns st0).st)
            ((renameRecovery args dns st0).st.servers_synced ++ hydrated)).map Server.id := by
      rw [server_ids_from_state, hst]
    constructor
    · show (server_ids_from_state
          (runFromDiff args cloud dns (renameRecovery args dns st0).st).st).toFinset
          = current_servers.toFinset
      rw [h1]
      exact hrec.1
    · show (server_ids_from_state
          (runFromDiff args cloud dns (renameRecovery args dns st0).st).st).Nodup
      rw [h1]
      exact hrec.2

/-- C1 witness: a concrete successful run against members `[2, 3, 3]`
starting from a state knowing ids 1 and 2 ends with ids exactly
`{2, 3}` and no duplicates. -/
theorem claim_C1_witness :
    (server_ids_from_state
        (runMain ⟨"mynet", "zone.example", false⟩ wCloud wEnvOk
          ⟨"mynet", [wServer1, wServer2]⟩).st).toFinset
      = ([2, 3, 3] : List Int).toFinset
    ∧ (server_ids_from_state
        (runMain ⟨"mynet", "zone.example", false⟩ wCloud wEnvOk
          ⟨"mynet", [wServer1, wServer2]⟩).st).Nodup :=
  claim_C1 ⟨"mynet", "zone.example", false⟩ wCloud wEnvOk
    ⟨"mynet", [wServer1, wServer2]⟩ [2, 3, 3] (by decide) rfl rfl

set_option maxRecDepth 20000 in
/-- C6: REFUTED on the code — `StateWrapper::save` seeks to offset 0 and
serializes without truncating the file, so when the new serialization is
shorter than the previous contents the persisted bytes are NOT the
serialization of the in-memory state: a tail of the previous contents
survives.  Concretely, saving the empty-list state over the previous
serialization of a one-server state leaves 52 bytes of residue (which the
program's own `serde_json::from_reader` in `from_directory` would then
reject as trailing characters on the next run). -/
theorem claim_C6_save_residue :
    StateWrapper.save (StateWrapper.serializeState ⟨"mynet", [wServer1]⟩) ⟨"mynet", []⟩
        ≠ StateWrapper.serializeState ⟨"mynet", []⟩
    ∧ StateWrapper.save (StateWrapper.serializeState ⟨"mynet", [wServer1]⟩) ⟨"mynet", []⟩
        = StateWrapper.serializeState ⟨"mynet", []⟩
          ++ "id\":1,\"ip_address\":\"10.0.0.1\",\"hostname\":\"alpha\"\x7d]\x7d" := by
  constructor
  · decide
  · decide

theorem deleteCallsFor_cons (z : String) (l : List Server) (a : Int)
    (ids : List Int) :
    deleteCallsFor z l (a :: ids)
      = (match findById l a with
         | some s => [DnsCall.delete (fqdn s z)]
         | none => []) ++ deleteCallsFor z l ids := by
  simp [deleteCallsFor]

theorem removeLoop_fail (env : DnsEnv) (z : String) (preIds : List Int) :
    ∀ (a : Int) (postIds : List Int) (st : State),
    (preIds ++ a :: postIds).Nodup →
    (∀ x ∈ preIds ++ a :: postIds, x ∈ st.servers_synced.map Server.id) →
    (∀ x ∈ preIds, ∀ srv, findById st.servers_synced x = some srv →
      env.deleteRes srv = .ok) →
    (∀ srv, findById st.servers_synced a = some srv → env.deleteRes srv ≠ .ok) →
    ∃ m, removeLoop env z (preIds ++ a :: postIds) st =
      ⟨.error (.fatal m),
       { st with servers_synced := dropIds preIds st.servers_synced },
       removeSaves st preIds,
       deleteCallsFor z st.servers_synced (preIds ++ [a])⟩ := by
  induction preIds with
  | nil =>
    intro a postIds st hnd hsub hpre hfail
    have hsome := findById_isSome st.servers_synced a (hsub a (by simp))
    obtain ⟨srv, hsrv⟩ := Option.isSome_iff_exists.mp hsome
    have hsrv' : st.servers_synced.find? (fun s => s.id == a) = some srv := hsrv
    obtain ⟨m, hm⟩ := remove_server_of_fail env z srv (hfail srv hsrv)
    refine ⟨m, ?_⟩
    simp only [List.nil_append, removeLoop, hsrv', hm]
    simp [dropIds_nil, removeSaves, deleteCallsFor, hsrv]
  | cons x preIds' ih =>
    intro a postIds st hnd hsub hpre hfail
    have hsome := findById_isSome st.servers_synced x (hsub x (by simp))
    obtain ⟨srv, hsrv⟩ := Option.isSome_iff_exists.mp hsome
    have hsrv' : st.servers_synced.find? (fun s => s.id == x) = some srv := hsrv
    have hid : srv.id = x := findById_id _ _ _ hsrv
    have hdel : env.deleteRes srv = .ok := hpre x (by simp) srv hsrv
    have hr := remove_server_of_ok env z srv hdel
    have hx_not : x ∉ preIds' ++ a :: postIds := (List.nodup_cons.mp hnd).1
    have hsub' : ∀ y ∈ preIds' ++ a :: postIds,
        y ∈ (st.servers_synced.filter (fun s => s.id != x)).map Server.id := by
      intro y hy
      have hyx : y ≠ x := by rintro rfl; exact hx_not hy
      exact (mem_map_id_filter_ne _ x y hyx).mpr (hsub y (by simp [hy]))
    have hpre' : ∀ y ∈ preIds', ∀ srv2,
        findById (st.servers_synced.filter (fun s => s.id != x)) y = some srv2 →
        env.deleteRes srv2 = .ok := by
      intro y hy srv2 hfind
      have hyx : y ≠ x := by rintro rfl; exact hx_not (by simp [hy])
      rw [findById_filter_ne _ x y hyx] at hfind
      exact hpre y (by simp [hy]) srv2 hfind
    have hfail' : ∀ srv2,
        findById (st.servers_synced.filter (fun s => s.id != x)) a = some srv2 →
        env.deleteRes srv2 ≠ .ok := by
      intro srv2 hfind
      have hax : a ≠ x := by rintro rfl; exact hx_not (by simp)
      rw [findById_filter_ne _ x a hax] at hfind
      exact hfail srv2 hfind
    obtain ⟨m, hm⟩ := ih a postIds
      { st with servers_synced := st.servers_synced.filter (fun s => s.id != x) }
      hnd.of_cons hsub' hpre' hfail'
    refine ⟨m, ?_⟩
    simp only [List.cons_append, removeLoop, hsrv', hr, List.append_eq]
    simp only [hid]
    rw [hm]
    have hcf : deleteCallsFor z (st.servers_synced.filter (fun s => s.id != x))
        (preIds' ++ [a]) = deleteCallsFor z st.servers_synced (preIds' ++ [a]) := by
      apply deleteCallsFor_filter_ne
      intro y hy
      rcases List.mem_append.mp hy with hy' | hy'
      · rintro rfl; exact hx_not (by simp [hy'])
      · have : y = a := by simpa using hy'
        subst this
        rintro rfl; exact hx_not (by simp)
    simp [removeSaves, dropIds_cons, deleteCallsFor_cons, hsrv, hcf, LoopOut.mk.injEq]

theorem runMain_unchanged (args : Args) (cloud : CloudEnv) (dns : DnsEnv)
    (st0 : State) (heq : st0.private_network_name = args.private_network_name) :
    runMain args cloud dns st0 = runFromDiff args cloud dns st0 := by
  have hrr := renameRecovery_unchanged args dns st0 heq
  rw [runMain_decomp args cloud dns st0 (by rw [hrr]), hrr]
  simp

/-- C7: on a run whose rename phase is trivial (names equal) with a known
membership and fully hydrated add-set: (A) if the create/update of the
(k+1)-st scheduled addition fails after k successes, the run aborts with a
fatal error, the only calls issued are the membership query, the hydration
lookups, and the DNS calls up to and including the failing one (in
particular no removal is attempted), and the persisted trail is exactly the
k incremental post-mutation states followed by the exit flush of that same
state; (B) if all additions succeed and the delete of the (j+1)-st
scheduled removal fails after j successes, the run aborts with a fatal
error, no further calls are issued, and the persisted trail is the
incremental addition states, then the j incremental removal states, then
the exit flush — every mutation applied before the failure is committed. -/
theorem claim_C7 (args : Args) (cloud : CloudEnv) (dns : DnsEnv) (st0 : State)
    (current_servers : List Int) (hydrated : List Server) (hcalls : List ExtCall)
    (heq : st0.private_network_name = args.private_network_name)
    (hcur : cloud.serverIdsRes = .ok current_servers)
    (hyd : hydrate_server_list cloud (servers_to_add_ids current_servers st0)
      = (.ok hydrated, hcalls)) :
    (∀ (pre : List Server) (s : Server) (post : List Server),
      hydrated = pre ++ s :: post →
      (∀ x ∈ pre, (add_server dns args.zone_name x).1 = .ok ()) →
      (add_server dns args.zone_name s).1 ≠ .ok () →
      (∃ m, (runMain args cloud dns st0).res = .error (.fatal m))
      ∧ (runMain args cloud dns st0).st
          = { st0 with servers_synced := st0.servers_synced ++ pre }
      ∧ (runMain args cloud dns st0).saves
          = addSaves st0 pre
            ++ [{ st0 with servers_synced := st0.servers_synced ++ pre }]
      ∧ (runMain args cloud dns st0).calls
          = [ExtCall.listNetwork] ++ hcalls
            ++ ((addCalls dns args.zone_name pre
                ++ (add_server dns args.zone_name s).2).map ExtCall.dns))
    ∧ ((∀ x ∈ hydrated, (add_server dns args.zone_name x).1 = .ok ()) →
      ∀ (preIds : List Int) (aId : Int) (postIds : List Int),
      servers_to_remove_ids current_servers st0 = preIds ++ aId :: postIds →
      (∀ x ∈ preIds, ∀ srv, findById (st0.servers_synced ++ hydrated) x = some srv →
        dns.deleteRes srv = .ok) →
      (∀ srv, findById (st0.servers_synced ++ hydrated) aId = some srv →
        dns.deleteRes srv ≠ .ok) →
      (∃ m, (runMain args cloud dns st0).res = .error (.fatal m))
      ∧ (runMain args cloud dns st0).st
          = { st0 with servers_synced :=
                (dropIds preIds (st0.servers_synced ++ hydrated)) }
      ∧ (runMain args cloud dns st0).saves
          = addSaves st0 hydrated
            ++ removeSaves { st0 with servers_synced := st0.servers_synced ++ hydrated } preIds
            ++ [{ st0 with servers_synced :=
                  (dropIds preIds (st0.servers_synced ++ hydrated)) }]
      ∧ (runMain args cloud dns st0).calls
          = [ExtCall.listNetwork] ++ hcalls
            ++ (addCalls dns args.zone_name hydrated).map ExtCall.dns
            ++ (deleteCallsFor args.zone_name (st0.servers_synced ++ hydrated)
                (preIds ++ [aId])).map ExtCall.dns) := by
  constructor
  · intro pre s post hsplit hpreok hsfail
    obtain ⟨m, hm⟩ := addLoop_fail dns args.zone_name pre s post st0 hpreok hsfail
    have hrfd : runFromDiff args cloud dns st0 =
        ⟨.error (.fatal m),
         { st0 with servers_synced := st0.servers_synced ++ pre },
         addSaves st0 pre
           ++ [{ st0 with servers_synced := st0.servers_synced ++ pre }],
         [ExtCall.listNetwork] ++ hcalls
           ++ ((addCalls dns args.zone_name pre
               ++ (add_server dns args.zone_name s).2).map ExtCall.dns)⟩ := by
      rw [runFromDiff, hcur]
      simp only []
      rw [hyd]
      simp only []
      rw [hsplit, hm]
    rw [runMain_unchanged args cloud dns st0 heq, hrfd]
    exact ⟨⟨m, rfl⟩, rfl, rfl, rfl⟩
  · intro hallok preIds aId postIds hsplitR hpreDel hfailDel
    have haddall := addLoop_all_ok dns args.zone_name hydrated st0 hallok
    have hndR : (preIds ++ aId :: postIds).Nodup := by
      rw [← hsplitR]
      exact servers_to_remove_nodup current_servers st0
    have hsubR : ∀ x ∈ preIds ++ aId :: postIds,
        x ∈ (st0.servers_synced ++ hydrated).map Server.id := by
      intro x hx
      have hxR : x ∈ servers_to_remove_ids current_servers st0 := by
        rw [hsplitR]; exact hx
      have hxK := ((mem_servers_to_remove current_servers st0 x).mp hxR).1
      rw [server_ids_from_state] at hxK
      simp only [List.map_append, List.mem_append]
      exact Or.inl hxK
    obtain ⟨m, hm⟩ := removeLoop_fail dns args.zone_name preIds aId postIds
      { st0 with servers_synced := st0.servers_synced ++ hydrated }
      hndR hsubR hpreDel hfailDel
    have hrfd : runFromDiff args cloud dns st0 =
        ⟨.error (.fatal m),
         { st0 with servers_synced :=
             (dropIds preIds (st0.servers_synced ++ hydrated)) },
         addSaves st0 hydrated
           ++ removeSaves { st0 with servers_synced := st0.servers_synced ++ hydrated } preIds
           ++ [{ st0 with servers_synced :=
                 (dropIds preIds (st0.servers_synced ++ hydrated)) }],
         [ExtCall.listNetwork] ++ hcalls
           ++ (addCalls dns args.zone_name hydrated).map ExtCall.dns
           ++ (deleteCallsFor args.zone_name (st0.servers_synced ++ hydrated)
               (preIds ++ [aId])).map ExtCall.dns⟩ := by
      rw [runFromDiff, hcur]
      simp only []
      rw [hyd]
      simp only []
      rw [haddall]
      simp only []
      rw [hsplitR, hm]
    rw [runMain_unchanged args cloud dns st0 heq, hrfd]
    exact ⟨⟨m, rfl⟩, rfl, rfl, rfl⟩

/-- C7 witness: with the first scheduled addition failing on a transport
error, the concrete run aborts fatally and the state is exactly as loaded
(zero additions committed). -/
theorem claim_C7_witness :
    (∃ m, (runMain wArgs wCloud wEnvCreate2Fails ⟨"mynet", [wServer1]⟩).res
        = .error (.fatal m))
    ∧ (runMain wArgs wCloud wEnvCreate2Fails ⟨"mynet", [wServer1]⟩).st
        = ⟨"mynet", [wServer1]⟩ := by
  have h := (claim_C7 wArgs wCloud wEnvCreate2Fails ⟨"mynet", [wServer1]⟩ [2, 3, 3]
      [⟨2, "10.0.0.2", "beta"⟩, ⟨3, "10.0.0.3", "gamma"⟩]
      [ExtCall.getServer 2, ExtCall.getServer 3] rfl rfl rfl).1
      [] ⟨2, "10.0.0.2", "beta"⟩ [⟨3, "10.0.0.3", "gamma"⟩] rfl
      (by intro x hx; cases hx)
      (by intro hcontra; exact Except.noConfusion hcontra)
  exact ⟨h.1, h.2.1.trans (by rfl)⟩

end DnsSync
